import Mathlib

/-!
Verification of the runtipi App Lifecycle Orchestration Engine against its
natural-language specification.

The definitions below are a shallow embedding of the repository's code:

* the server-side lifecycle commands (`src/server/services/apps/apps.service.ts`,
  `src/server/services/app-lifecycle/commands/*.ts`) acting on the persisted
  app table, modelled as an association list from app id to record;
* the worker-side executors (`packages/worker/src/services/app/app.executors.ts`)
  acting on a file-system model (finite maps of paths to file contents plus a
  set of directories) and on the app table;
* the environment-file generator, whose implementation lives in a package that
  is not part of the sources at hand; it is modelled from the specification
  (§4.4) where noted.

External effects (container runtime invocations, event dispatch) are modelled
by boolean result parameters: each command receives the outcome of its
external operation as an argument, mirroring the `{success, stdout}` results
the code branches on.
-/

namespace Runtipi

/-- The persisted app status enum (`app_status_enum` in `src/server/db/schema.ts`,
extended with the transient statuses emitted by the worker). -/
inductive AppStatus
  | running
  | stopped
  | starting
  | stopping
  | updating
  | missing
  | installing
  | uninstalling
  | resetting
  | restarting
  | restoring
  | backingUp
deriving DecidableEq, Repr

/-- Association-list lookup keyed by strings; models `db.query.findFirst`
with an equality condition on the primary key. -/
def assocLookup {α : Type} (l : List (String × α)) (k : String) : Option α :=
  match l with
  | [] => none
  | e :: r => if e.1 = k then some e.2 else assocLookup r k

theorem assocLookup_nil {α : Type} (k : String) : assocLookup ([] : List (String × α)) k = none := rfl

theorem assocLookup_cons {α : Type} (e : String × α) (r : List (String × α)) (k : String) :
    assocLookup (e :: r) k = if e.1 = k then some e.2 else assocLookup r k := rfl

/-- A persisted app record (the `app` table row fields this core reads/writes). -/
structure ARec where
  status : AppStatus
  exposed : Bool
  domain : Option String
  version : Nat
  isVisibleOnGuestDashboard : Bool
deriving DecidableEq, Repr

/-- The app table: an association list keyed by app id. -/
abbrev Store := List (String × ARec)

/-- `AppQueries.updateApp`: update the row with the given id (if present). -/
def updateRec (s : Store) (id : String) (f : ARec → ARec) : Store :=
  s.map (fun e => if e.1 = id then (e.1, f e.2) else e)

/-- Status-only update. -/
def setStatus (s : Store) (id : String) (st : AppStatus) : Store :=
  updateRec s id (fun r => { r with status := st })

/-- `AppQueries.deleteApp`. -/
def deleteApp (s : Store) (id : String) : Store :=
  s.filter (fun e => decide (e.1 ≠ id))

/-- `AppQueries.createApp` (an insert). -/
def createApp (s : Store) (id : String) (r : ARec) : Store :=
  s ++ [(id, r)]

/-- `AppQueries.getAppsByDomain`: rows with the given domain, `exposed = true`
and a different id. -/
def getAppsByDomain (s : Store) (d : String) (id : String) : Store :=
  s.filter (fun e => decide (e.2.domain = some d) && e.2.exposed && decide (e.1 ≠ id))

/-- The catalog app definition fields consulted by the server commands. -/
structure AppInfo where
  exposable : Bool
  force_expose : Bool
  tipi_version : Nat
deriving DecidableEq, Repr

/-- The user-submitted form fields the lifecycle commands read. -/
structure AppForm where
  exposed : Bool
  domain : Option String
  isVisibleOnGuestDashboard : Bool
deriving DecidableEq, Repr

/-- External collaborators of the server commands: FQDN validation
(`validator.isFQDN`), catalog lookup (`getAppInfo` / `getInstalledInfo`),
requirement checking (`checkAppRequirements`) and global config. -/
structure SrvEnv where
  isFQDN : String → Bool
  getAppInfo : String → Option AppInfo
  requirementsOk : String → Bool
  demoMode : Bool

/-- The typed precondition errors (`TranslatedError` keys). -/
inductive SrvError
  | appNotFound
  | demoModeLimit
  | domainRequiredIfExposeApp
  | domainNotValid
  | invalidConfig
  | appNotExposable
  | appForceExposed
  | domainAlreadyInUse (otherId : String)
  | appFailedToUpdate
deriving DecidableEq, Repr

/-- `domain && !validator.isFQDN(domain)` truthiness check. -/
def badDomain (env : SrvEnv) (dom : Option String) : Bool :=
  match dom with
  | some d => ! env.isFQDN d
  | none => false

/-- `AppServiceClass.stopApp`: throws if the app is missing, writes `stopping`,
dispatches the stop event; on success writes `stopped`, on failure reverts to
`running`. `stopOk` is the dispatched event's success flag. The returned pair
is (thrown error if any, store after the command and its completion callback). -/
def stopAppSrv (s : Store) (id : String) (stopOk : Bool) : Option SrvError × Store :=
  match assocLookup s id with
  | none => (some SrvError.appNotFound, s)
  | some _ =>
    let s1 := setStatus s id AppStatus.stopping
    if stopOk then (none, setStatus s1 id AppStatus.stopped)
    else (none, setStatus s1 id AppStatus.running)

/-- `StartAppCommand.execute` (and `AppServiceClass.startApp`, which has the
same status flow): throws if the app is missing, writes `starting`; on success
writes `running`, on failure `stopped`. -/
def startAppCommandExec (s : Store) (id : String) (startOk : Bool) : Option SrvError × Store :=
  match assocLookup s id with
  | none => (some SrvError.appNotFound, s)
  | some _ =>
    let s1 := setStatus s id AppStatus.starting
    if startOk then (none, setStatus s1 id AppStatus.running)
    else (none, setStatus s1 id AppStatus.stopped)

/-- `AppServiceClass.installApp`: precondition checks in source order, then the
record is created with status `installing` and the install event dispatched;
on success the record becomes `running`, on failure it is deleted.
`installOk` is the dispatched event's success flag (also used for the
start dispatch when the app already exists). -/
def installAppSrv (env : SrvEnv) (s : Store) (id : String) (form : AppForm)
    (installOk : Bool) : Option SrvError × Store :=
  match assocLookup s id with
  | some _ => startAppCommandExec s id installOk
  | none =>
    if 6 ≤ s.length ∧ env.demoMode = true then (some SrvError.demoModeLimit, s)
    else if form.exposed = true ∧ form.domain = none then (some SrvError.domainRequiredIfExposeApp, s)
    else if badDomain env form.domain = true then (some SrvError.domainNotValid, s)
    else if env.requirementsOk id = false then (some SrvError.invalidConfig, s)
    else
      match env.getAppInfo id with
      | none => (some SrvError.invalidConfig, s)
      | some info =>
        if info.exposable = false ∧ form.exposed = true then (some SrvError.appNotExposable, s)
        else if (info.force_expose = true ∧ form.exposed = false) ∨
                (info.force_expose = true ∧ form.domain = none) then
          (some SrvError.appForceExposed, s)
        else
          let collisions :=
            match form.domain with
            | some d => if form.exposed then getAppsByDomain s d id else []
            | none => []
          match collisions with
          | other :: _ => (some (SrvError.domainAlreadyInUse other.1), s)
          | [] =>
            let s1 := createApp s id
              { status := AppStatus.installing
                exposed := form.exposed
                domain := form.domain
                version := info.tipi_version
                isVisibleOnGuestDashboard := form.isVisibleOnGuestDashboard }
            if installOk then (none, setStatus s1 id AppStatus.running)
            else (none, deleteApp s1 id)

/-- `UpdateAppConfigCommand.execute`: validation in source order, then the
`generate_env` event is dispatched (`envOk` its success flag); only if it
succeeds is the record updated with the new exposure settings. -/
def updateAppConfigExec (env : SrvEnv) (s : Store) (id : String) (form : AppForm)
    (envOk : Bool) : Option SrvError × Store :=
  if form.exposed = true ∧ form.domain = none then (some SrvError.domainRequiredIfExposeApp, s)
  else if badDomain env form.domain = true then (some SrvError.domainNotValid, s)
  else
    match assocLookup s id with
    | none => (some SrvError.appNotFound, s)
    | some _ =>
      match env.getAppInfo id with
      | none => (some SrvError.appNotFound, s)
      | some info =>
        if info.exposable = false ∧ form.exposed = true then (some SrvError.appNotExposable, s)
        else if info.force_expose = true ∧ form.exposed = false then (some SrvError.appForceExposed, s)
        else
          let collisions :=
            match form.domain with
            | some d => if form.exposed then getAppsByDomain s d id else []
            | none => []
          match collisions with
          | other :: _ => (some (SrvError.domainAlreadyInUse other.1), s)
          | [] =>
            if envOk = false then (some SrvError.appFailedToUpdate, s)
            else
              (none, updateRec s id (fun r =>
                { r with
                  exposed := form.exposed
                  domain := form.domain
                  isVisibleOnGuestDashboard := form.isVisibleOnGuestDashboard }))

theorem assocLookup_updateRec_self (s : Store) (id : String) (f : ARec → ARec) :
    assocLookup (updateRec s id f) id = (assocLookup s id).map f := by
  induction s with
  | nil => rfl
  | cons e r ih =>
    by_cases h : e.1 = id
    · simp [updateRec, assocLookup, h]
    · simpa [updateRec, assocLookup, h] using ih

theorem assocLookup_setStatus_self (s : Store) (id : String) (st : AppStatus) :
    assocLookup (setStatus s id st) id = (assocLookup s id).map (fun r => { r with status := st }) :=
  assocLookup_updateRec_self s id _

theorem assocLookup_deleteApp_self (s : Store) (id : String) :
    assocLookup (deleteApp s id) id = none := by
  induction s with
  | nil => rfl
  | cons e r ih =>
    by_cases h : e.1 = id
    · simpa [deleteApp, h] using ih
    · simpa [deleteApp, assocLookup, h] using ih

/-- C1: for the lifecycle commands, when the underlying external operation
fails the App Record ends at the documented fallback status — `stop` failing
reverts to `running`, `start` failing reverts to `stopped`, `install` failing
reverts to `missing` (the record is deleted, and an absent record is treated
identically to `missing`) — never at the in-progress status. -/
theorem stop_start_install_fallback_status
    (env : SrvEnv) (s t : Store) (id : String) (r : ARec) (form : AppForm) (info : AppInfo)
    (hs : assocLookup s id = some r)
    (ht : assocLookup t id = none)
    (hdemo : env.demoMode = false)
    (hreq : env.requirementsOk id = true)
    (hinfo : env.getAppInfo id = some info)
    (hexp : form.exposed = false)
    (hforce : info.force_expose = false)
    (hdomf : form.domain = none) :
    assocLookup (stopAppSrv s id false).2 id = some { r with status := AppStatus.running } ∧
    assocLookup (startAppCommandExec s id false).2 id = some { r with status := AppStatus.stopped } ∧
    assocLookup (installAppSrv env t id form false).2 id = none := by
  refine ⟨?_, ?_, ?_⟩
  · simp [stopAppSrv, hs, assocLookup_setStatus_self]
  · simp [startAppCommandExec, hs, assocLookup_setStatus_self]
  · simp [installAppSrv, ht, hdemo, hexp, hdomf, badDomain, hreq, hinfo, hforce,
      assocLookup_deleteApp_self]

def c1Info : AppInfo := { exposable := true, force_expose := false, tipi_version := 1 }

def c1Env : SrvEnv :=
  { isFQDN := fun _ => true
    getAppInfo := fun _ => some c1Info
    requirementsOk := fun _ => true
    demoMode := false }

def c1Rec : ARec :=
  { status := AppStatus.running, exposed := false, domain := none, version := 1
    isVisibleOnGuestDashboard := false }

def c1Form : AppForm := { exposed := false, domain := none, isVisibleOnGuestDashboard := false }

theorem stop_start_install_fallback_status_witness :
    assocLookup (stopAppSrv [("a", c1Rec)] "a" false).2 "a" =
      some { c1Rec with status := AppStatus.running } ∧
    assocLookup (startAppCommandExec [("a", c1Rec)] "a" false).2 "a" =
      some { c1Rec with status := AppStatus.stopped } ∧
    assocLookup (installAppSrv c1Env [] "a" c1Form false).2 "a" = none :=
  stop_start_install_fallback_status c1Env [("a", c1Rec)] [] "a" c1Rec c1Form c1Info
    (by simp [assocLookup]) rfl rfl rfl rfl rfl rfl rfl

/-- C2: domain exclusivity — when an app requests `exposed = true` with a
domain already held by a different exposed app, both `UpdateAppConfigCommand`
and `AppServiceClass.installApp` fail with a domain-already-in-use error and
leave the store exactly as it was, so the requesting app's record keeps its
prior `exposed`/`domain` values. -/
theorem domain_exclusivity_second_request_rejected
    (env : SrvEnv) (s t : Store) (id oid : String) (orec rec : ARec) (form : AppForm)
    (info : AppInfo) (d : String) (envOk installOk : Bool)
    (hne : oid ≠ id)
    (hos : (oid, orec) ∈ s) (hot : (oid, orec) ∈ t)
    (hoexp : orec.exposed = true) (hodom : orec.domain = some d)
    (hform : form.exposed = true) (hfd : form.domain = some d)
    (hfqdn : env.isFQDN d = true)
    (happ : assocLookup s id = some rec)
    (ht : assocLookup t id = none)
    (hinfo : env.getAppInfo id = some info)
    (hexpo : info.exposable = true)
    (hdemo : env.demoMode = false)
    (hreq : env.requirementsOk id = true) :
    (∃ cid, updateAppConfigExec env s id form envOk = (some (SrvError.domainAlreadyInUse cid), s)) ∧
    (∃ cid, installAppSrv env t id form installOk = (some (SrvError.domainAlreadyInUse cid), t)) := by
  have hmemS : (oid, orec) ∈ getAppsByDomain s d id := by
    simp [getAppsByDomain, List.mem_filter, hos, hodom, hoexp, hne]
  have hmemT : (oid, orec) ∈ getAppsByDomain t d id := by
    simp [getAppsByDomain, List.mem_filter, hot, hodom, hoexp, hne]
  obtain ⟨c, cs, hcolS⟩ := List.exists_cons_of_ne_nil (List.ne_nil_of_mem hmemS)
  obtain ⟨c2, cs2, hcolT⟩ := List.exists_cons_of_ne_nil (List.ne_nil_of_mem hmemT)
  constructor
  · refine ⟨c.1, ?_⟩
    simp [updateAppConfigExec, hfd, badDomain, hfqdn, happ, hinfo, hexpo, hform, hcolS]
  · refine ⟨c2.1, ?_⟩
    simp [installAppSrv, ht, hdemo, hfd, badDomain, hfqdn, hreq, hinfo, hexpo, hform, hcolT]

def c2Other : ARec :=
  { status := AppStatus.running, exposed := true, domain := some "example.com", version := 1
    isVisibleOnGuestDashboard := false }

def c2Rec : ARec :=
  { status := AppStatus.stopped, exposed := false, domain := none, version := 1
    isVisibleOnGuestDashboard := false }

def c2Info : AppInfo := { exposable := true, force_expose := false, tipi_version := 1 }

def c2Env : SrvEnv :=
  { isFQDN := fun _ => true
    getAppInfo := fun _ => some c2Info
    requirementsOk := fun _ => true
    demoMode := false }

def c2Form : AppForm :=
  { exposed := true, domain := some "example.com", isVisibleOnGuestDashboard := false }

theorem domain_exclusivity_second_request_rejected_witness :
    (∃ cid, updateAppConfigExec c2Env [("other", c2Other), ("b", c2Rec)] "b" c2Form true =
      (some (SrvError.domainAlreadyInUse cid), [("other", c2Other), ("b", c2Rec)])) ∧
    (∃ cid, installAppSrv c2Env [("other", c2Other)] "b" c2Form true =
      (some (SrvError.domainAlreadyInUse cid), [("other", c2Other)])) :=
  domain_exclusivity_second_request_rejected c2Env [("other", c2Other), ("b", c2Rec)]
    [("other", c2Other)] "b" "other" c2Other c2Rec c2Form c2Info "example.com" true true
    (by decide) (by simp) (by simp) rfl rfl rfl rfl rfl (by simp [assocLookup])
    (by simp [assocLookup]) rfl rfl rfl rfl

/-- Modelled from the spec: the Environment File Generator (`generateEnvFile`
in the apps helpers module) is not among the sources at hand; §4.4 / §3 declare
each form field with a type, a required flag and, for the `random` type, a
generation rule. Only the two kinds the claims distinguish are modelled. -/
inductive FieldType
  | text
  | random
deriving DecidableEq, Repr

/-- A declared form field of an app definition (spec §3, App Definition). -/
structure FormField where
  env_variable : String
  required : Bool
  type : FieldType
deriving DecidableEq, Repr

/-- A flat key-value environment artifact (spec §3, Environment File). -/
abbrev EnvMap := List (String × String)

/-- Modelled from the spec (§4.4): the value used for a random-kind field —
the value the environment file already defines if any, otherwise a freshly
generated value (`rand` is the generator, keyed by variable name). -/
def exVal (existing : EnvMap) (rand : String → String) (v : String) : String :=
  match assocLookup existing v with
  | some w => w
  | none => rand v

/-- Modelled from the spec (§4.4): the first required field absent from the
submitted form, if any — validation happens before any write. -/
def firstMissingRequired (fields : List FormField) (form : String → Option String) :
    Option FormField :=
  fields.find? (fun f => f.required && (form f.env_variable).isNone)

/-- Modelled from the spec (§4.4): one environment entry per declared field —
the submitted value when present, the preserved-or-generated value for
random-kind fields, nothing for an absent optional text field. -/
def fieldEntries (fields : List FormField) (form : String → Option String)
    (existing : EnvMap) (rand : String → String) : EnvMap :=
  fields.filterMap (fun f =>
    match form f.env_variable with
    | some v => some (f.env_variable, v)
    | none =>
      match f.type with
      | FieldType.random => some (f.env_variable, exVal existing rand f.env_variable)
      | FieldType.text => none)

/-- Modelled from the spec (§4.4): the computed exposure variables — the
exposed flag and the externally reachable domain, falling back to
`localhost:{port}` when the app is not exposed with a domain. -/
def exposureEntries (exposed : Bool) (domain : Option String) (port : Nat) : EnvMap :=
  match domain with
  | some d =>
    if exposed then [("APP_EXPOSED", "true"), ("APP_DOMAIN", d)]
    else [("APP_DOMAIN", "localhost:" ++ toString port)]
  | none => [("APP_DOMAIN", "localhost:" ++ toString port)]

/-- Modelled from the spec (§4.4): environment-file generation, as
validate-then-build; `existing` is the current environment file (`[]` when the
file does not exist). -/
def generateEnvFile (fields : List FormField) (form : String → Option String)
    (existing : EnvMap) (rand : String → String) (exposed : Bool) (domain : Option String)
    (port : Nat) : Except String EnvMap :=
  match firstMissingRequired fields form with
  | some f => Except.error ("Variable " ++ f.env_variable ++ " is required")
  | none =>
    Except.ok (fieldEntries fields form existing rand ++ exposureEntries exposed domain port)

/-- Modelled from the spec (§4.4): the write step — the environment file is
replaced only when generation succeeded. -/
def writeEnvFile (result : Except String EnvMap) (fileBefore : Option EnvMap) : Option EnvMap :=
  match result with
  | Except.error _ => fileBefore
  | Except.ok m => some m

theorem assocLookup_append_of_isSome {α : Type} (l1 l2 : List (String × α)) (k : String)
    (h : (assocLookup l1 k).isSome = true) : assocLookup (l1 ++ l2) k = assocLookup l1 k := by
  induction l1 with
  | nil => simp [assocLookup] at h
  | cons e r ih =>
    by_cases he : e.1 = k
    · simp [assocLookup, he]
    · simp [assocLookup, he] at h ⊢
      exact ih h

theorem assocLookup_append_of_none {α : Type} (l1 l2 : List (String × α)) (k : String)
    (h : assocLookup l1 k = none) : assocLookup (l1 ++ l2) k = assocLookup l2 k := by
  induction l1 with
  | nil => simp
  | cons e r ih =>
    by_cases he : e.1 = k
    · simp [assocLookup, he] at h
    · simp [assocLookup, he] at h ⊢
      exact ih h

theorem assocLookup_eq_none_of_no_key {α : Type} (l : List (String × α)) (k : String)
    (h : ∀ p ∈ l, p.1 ≠ k) : assocLookup l k = none := by
  induction l with
  | nil => rfl
  | cons e r ih =>
    have he := h e (List.mem_cons_self e r)
    simp [assocLookup, he]
    exact ih (fun p hp => h p (List.mem_cons_of_mem e hp))

theorem fieldEntries_lookup_random (fields : List FormField) (form : String → Option String)
    (existing : EnvMap) (rand : String → String) (g : FormField)
    (hg : g ∈ fields) (hr : g.type = FieldType.random) (hm : form g.env_variable = none) :
    assocLookup (fieldEntries fields form existing rand) g.env_variable =
      some (exVal existing rand g.env_variable) := by
  induction fields with
  | nil => cases hg
  | cons f fs ih =>
    by_cases he : f.env_variable = g.env_variable
    · have hformf : form f.env_variable = none := by rw [he, hm]
      cases hft : f.type with
      | random =>
        simp [fieldEntries, List.filterMap_cons, hformf, hft, assocLookup, he, hm]
      | text =>
        have hgs : g ∈ fs := by
          rcases List.mem_cons.mp hg with hfg | hgs
          · rw [hfg, hft] at hr; cases hr
          · exact hgs
        simpa [fieldEntries, List.filterMap_cons, hformf, hft] using ih hgs
    · have hgs : g ∈ fs := by
        rcases List.mem_cons.mp hg with hfg | hgs
        · rw [hfg] at he; exact absurd rfl he
        · exact hgs
      cases hformf : form f.env_variable with
      | some v =>
        simpa [fieldEntries, List.filterMap_cons, hformf, assocLookup, he] using ih hgs
      | none =>
        cases hft : f.type with
        | random =>
          simpa [fieldEntries, List.filterMap_cons, hformf, hft, assocLookup, he] using ih hgs
        | text =>
          simpa [fieldEntries, List.filterMap_cons, hformf, hft] using ih hgs

theorem fieldEntries_stable (fields : List FormField) (form : String → Option String)
    (e0 m1 : EnvMap) (rand : String → String)
    (h : ∀ g ∈ fields, g.type = FieldType.random → form g.env_variable = none →
      assocLookup m1 g.env_variable = some (exVal e0 rand g.env_variable)) :
    fieldEntries fields form m1 rand = fieldEntries fields form e0 rand := by
  induction fields with
  | nil => rfl
  | cons f fs ih =>
    have hrest : ∀ g ∈ fs, g.type = FieldType.random → form g.env_variable = none →
        assocLookup m1 g.env_variable = some (exVal e0 rand g.env_variable) :=
      fun g hg => h g (List.mem_cons_of_mem f hg)
    have hih := ih hrest
    simp only [fieldEntries] at hih ⊢
    cases hform : form f.env_variable with
    | some v => simp [List.filterMap_cons, hform, hih]
    | none =>
      cases hft : f.type with
      | text => simp [List.filterMap_cons, hform, hft, hih]
      | random =>
        have hv := h f (List.mem_cons_self f fs) hft hform
        simp [List.filterMap_cons, hform, hft, hih]
        simp [exVal, hv]

theorem fieldEntries_keys (fields : List FormField) (form : String → Option String)
    (existing : EnvMap) (rand : String → String) (p : String × String)
    (hp : p ∈ fieldEntries fields form existing rand) :
    ∃ g ∈ fields, p.1 = g.env_variable := by
  simp only [fieldEntries, List.mem_filterMap] at hp
  obtain ⟨g, hg, hmatch⟩ := hp
  refine ⟨g, hg, ?_⟩
  cases hform : form g.env_variable with
  | some v =>
    rw [hform] at hmatch
    cases hmatch
    rfl
  | none =>
    rw [hform] at hmatch
    cases hft : g.type with
    | random =>
      rw [hft] at hmatch
      cases hmatch
      rfl
    | text =>
      rw [hft] at hmatch
      cases hmatch

/-- C3: for a required field absent from the submitted form, environment-file
generation fails with an error naming the missing variable exactly
(`Variable X is required`) and no environment file is written. -/
theorem required_field_missing_fails_no_write
    (fields : List FormField) (form : String → Option String) (existing : EnvMap)
    (rand : String → String) (exposed : Bool) (domain : Option String) (port : Nat)
    (fileBefore : Option EnvMap) (f : FormField)
    (hf : f ∈ fields) (hreq : f.required = true) (hmiss : form f.env_variable = none) :
    ∃ g, g ∈ fields ∧ g.required = true ∧ form g.env_variable = none ∧
      generateEnvFile fields form existing rand exposed domain port =
        Except.error ("Variable " ++ g.env_variable ++ " is required") ∧
      writeEnvFile (generateEnvFile fields form existing rand exposed domain port) fileBefore =
        fileBefore := by
  cases hfind : fields.find? (fun f => f.required && (form f.env_variable).isNone) with
  | none =>
    exfalso
    have := List.find?_eq_none.mp hfind f hf
    simp [hreq, hmiss] at this
  | some g =>
    have hgp := List.find?_some hfind
    have hgm := List.mem_of_find?_eq_some hfind
    simp only [Bool.and_eq_true, Option.isNone_iff_eq_none] at hgp
    exact ⟨g, hgm, hgp.1, hgp.2,
      by simp [generateEnvFile, firstMissingRequired, hfind],
      by simp [generateEnvFile, firstMissingRequired, writeEnvFile, hfind]⟩

def c3Field : FormField := { env_variable := "TEST_FIELD", required := true, type := FieldType.text }

theorem required_field_missing_fails_no_write_witness :
    ∃ g, g ∈ [c3Field] ∧ g.required = true ∧ (fun _ : String => (none : Option String)) g.env_variable = none ∧
      generateEnvFile [c3Field] (fun _ => none) [] (fun _ => "r") false none 80 =
        Except.error ("Variable " ++ g.env_variable ++ " is required") ∧
      writeEnvFile (generateEnvFile [c3Field] (fun _ => none) [] (fun _ => "r") false none 80) none =
        none :=
  required_field_missing_fails_no_write [c3Field] (fun _ => none) [] (fun _ => "r") false none 80
    none c3Field (by simp) rfl rfl

/-- C4: generating the environment file a second time, with the first
generation's output as the existing environment file, reproduces the same
environment map — in particular the same value for every random-kind field —
and each random-kind field's first-generation value is the one already defined
in the pre-existing file when present, otherwise the freshly generated one. -/
theorem random_field_stable_across_regeneration
    (fields : List FormField) (form : String → Option String) (e0 m1 : EnvMap)
    (rand : String → String) (exposed : Bool) (domain : Option String) (port : Nat)
    (h1 : generateEnvFile fields form e0 rand exposed domain port = Except.ok m1) :
    generateEnvFile fields form m1 rand exposed domain port = Except.ok m1 ∧
    ∀ f ∈ fields, f.type = FieldType.random → form f.env_variable = none →
      assocLookup m1 f.env_variable = some (exVal e0 rand f.env_variable) := by
  cases hfind : fields.find? (fun f => f.required && (form f.env_variable).isNone) with
  | some g => simp [generateEnvFile, firstMissingRequired, hfind] at h1
  | none =>
    have hm1 : m1 = fieldEntries fields form e0 rand ++ exposureEntries exposed domain port := by
      simp [generateEnvFile, firstMissingRequired, hfind] at h1
      exact h1.symm
    have hchar : ∀ f ∈ fields, f.type = FieldType.random → form f.env_variable = none →
        assocLookup m1 f.env_variable = some (exVal e0 rand f.env_variable) := by
      intro g hg hr hm
      have hfe := fieldEntries_lookup_random fields form e0 rand g hg hr hm
      rw [hm1, assocLookup_append_of_isSome _ _ _ (by simp [hfe])]
      exact hfe
    refine ⟨?_, hchar⟩
    have hstable := fieldEntries_stable fields form e0 m1 rand hchar
    simp only [generateEnvFile, firstMissingRequired, hfind]
    rw [hstable, ← hm1]

def c4Field : FormField :=
  { env_variable := "RANDOM_FIELD", required := false, type := FieldType.random }

theorem random_field_stable_across_regeneration_witness :
    generateEnvFile [c4Field] (fun _ => none)
        [("RANDOM_FIELD", "RRRR"), ("APP_DOMAIN", "localhost:" ++ toString 80)]
        (fun _ => "RRRR") false none 80 =
      Except.ok [("RANDOM_FIELD", "RRRR"), ("APP_DOMAIN", "localhost:" ++ toString 80)] ∧
    ∀ f ∈ [c4Field], f.type = FieldType.random → (fun _ : String => (none : Option String)) f.env_variable = none →
      assocLookup [("RANDOM_FIELD", "RRRR"), ("APP_DOMAIN", "localhost:" ++ toString 80)]
          f.env_variable =
        some (exVal [] (fun _ => "RRRR") f.env_variable) :=
  random_field_stable_across_regeneration [c4Field] (fun _ => none) []
    [("RANDOM_FIELD", "RRRR"), ("APP_DOMAIN", "localhost:" ++ toString 80)]
    (fun _ => "RRRR") false none 80 rfl

/-- C8: the generator injects the computed exposure variables — with
`exposed = false` the file maps `APP_DOMAIN` to `localhost:{port}` and has no
`APP_EXPOSED` entry; with `exposed = true` and a domain it maps `APP_EXPOSED`
to `true` and `APP_DOMAIN` to that domain. -/
theorem env_file_exposure_variables
    (fields : List FormField) (form : String → Option String) (existing : EnvMap)
    (rand : String → String) (exposed : Bool) (domain : Option String) (port : Nat)
    (m : EnvMap)
    (hok : generateEnvFile fields form existing rand exposed domain port = Except.ok m)
    (hname : ∀ g ∈ fields, g.env_variable ≠ "APP_DOMAIN" ∧ g.env_variable ≠ "APP_EXPOSED") :
    (exposed = false →
      assocLookup m "APP_DOMAIN" = some ("localhost:" ++ toString port) ∧
      assocLookup m "APP_EXPOSED" = none) ∧
    (∀ d, exposed = true → domain = some d →
      assocLookup m "APP_EXPOSED" = some "true" ∧ assocLookup m "APP_DOMAIN" = some d) := by
  cases hfind : fields.find? (fun f => f.required && (form f.env_variable).isNone) with
  | some g => simp [generateEnvFile, firstMissingRequired, hfind] at hok
  | none =>
    have hm : m = fieldEntries fields form existing rand ++ exposureEntries exposed domain port := by
      simp [generateEnvFile, firstMissingRequired, hfind] at hok
      exact hok.symm
    have hdomNone : assocLookup (fieldEntries fields form existing rand) "APP_DOMAIN" = none :=
      assocLookup_eq_none_of_no_key _ _ (fun p hp => by
        obtain ⟨g, hg, hpg⟩ := fieldEntries_keys fields form existing rand p hp
        rw [hpg]
        exact (hname g hg).1)
    have hexpNone : assocLookup (fieldEntries fields form existing rand) "APP_EXPOSED" = none :=
      assocLookup_eq_none_of_no_key _ _ (fun p hp => by
        obtain ⟨g, hg, hpg⟩ := fieldEntries_keys fields form existing rand p hp
        rw [hpg]
        exact (hname g hg).2)
    constructor
    · intro hexp
      rw [hm, assocLookup_append_of_none _ _ _ hdomNone,
        assocLookup_append_of_none _ _ _ hexpNone]
      cases domain with
      | none => simp [exposureEntries, assocLookup]
      | some d => simp [exposureEntries, hexp, assocLookup]
    · intro d hexp hdom
      rw [hm, assocLookup_append_of_none _ _ _ hdomNone,
        assocLookup_append_of_none _ _ _ hexpNone]
      simp [exposureEntries, hexp, hdom, assocLookup]

theorem env_file_exposure_variables_witness :
    ((false : Bool) = false →
      assocLookup [("APP_DOMAIN", "localhost:" ++ toString 80)] "APP_DOMAIN" =
        some ("localhost:" ++ toString 80) ∧
      assocLookup [("APP_DOMAIN", "localhost:" ++ toString 80)] "APP_EXPOSED" = none) ∧
    (∀ d, (false : Bool) = true → (none : Option String) = some d →
      assocLookup [("APP_DOMAIN", "localhost:" ++ toString 80)] "APP_EXPOSED" = some "true" ∧
      assocLookup [("APP_DOMAIN", "localhost:" ++ toString 80)] "APP_DOMAIN" = some d) :=
  env_file_exposure_variables [] (fun _ => none) [] (fun _ => "r") false none 80
    [("APP_DOMAIN", "localhost:" ++ toString 80)] rfl (by simp)

/-- A filesystem path, as its list of components (`path.join` is `++`). -/
abbrev Path := List String

/-- Prefix test on paths: `q` is at or below `p`. -/
def isUnder (p q : Path) : Bool :=
  match p, q with
  | [], _ => true
  | _ :: _, [] => false
  | a :: p, b :: q => if a = b then isUnder p q else false

/-- The filesystem: files with contents, plus explicitly created directories. -/
structure FS where
  files : List (Path × String)
  dirs : List Path
deriving DecidableEq, Repr

/-- `fs.promises.rm(p, { recursive: true, force: true })`. -/
def rmRec (fs : FS) (p : Path) : FS :=
  { files := fs.files.filter (fun e => ! isUnder p e.1)
    dirs := fs.dirs.filter (fun d => ! isUnder p d) }

/-- The destination of an entry under `src` when copying `src` to `dst`. -/
def relocate (src dst : Path) (q : Path) : Option Path :=
  if isUnder src q then some (dst ++ q.drop src.length) else none

/-- `fs.promises.cp(src, dst, { recursive: true })`: every entry under `src`
appears relocated under `dst`, overwriting files already at those paths. -/
def cpRec (fs : FS) (src dst : Path) : FS :=
  let copied := fs.files.filterMap (fun e => (relocate src dst e.1).map (fun p => (p, e.2)))
  { files := copied ++ fs.files.filter (fun e => ! copied.any (fun c => decide (c.1 = e.1)))
    dirs := fs.dirs.filterMap (relocate src dst) ++ fs.dirs }

/-- `fs.promises.mkdir(p, { recursive: true })`. -/
def mkdirRec (fs : FS) (p : Path) : FS := { fs with dirs := p :: fs.dirs }

/-- `fs.promises.writeFile(p, c)`. -/
def writeF (fs : FS) (p : Path) (c : String) : FS :=
  { fs with files := (p, c) :: fs.files.filter (fun e => ! decide (e.1 = p)) }

/-- `fs.promises.readFile(p)` (`none` when there is no file at exactly `p`). -/
def readFileF (fs : FS) (p : Path) : Option String :=
  match fs.files.find? (fun e => decide (e.1 = p)) with
  | some e => some e.2
  | none => none

/-- `pathExists(p)`: something exists at or below `p`. -/
def pathExistsB (fs : FS) (p : Path) : Bool :=
  fs.dirs.any (fun d => isUnder p d) || fs.files.any (fun e => isUnder p e.1)

/-- `fs.promises.readdir(p)`: names of immediate children of `p`. -/
def childNames (fs : FS) (p : Path) : List String :=
  (fs.dirs ++ fs.files.map Prod.fst).filterMap (fun q =>
    if isUnder p q then (q.drop p.length).head? else none)

theorem bool_eq_of_iff {a b : Bool} (h : a = true ↔ b = true) : a = b := by
  cases a <;> cases b <;> simp_all

theorem isUnder_refl (p : Path) : isUnder p p = true := by
  induction p with
  | nil => rfl
  | cons a p ih => simp [isUnder, ih]

theorem isUnder_append_self (p t : Path) : isUnder p (p ++ t) = true := by
  induction p with
  | nil => rfl
  | cons a p ih => simp [isUnder, ih]

theorem isUnder_cons_same (a : String) (p q : Path) : isUnder (a :: p) (a :: q) = isUnder p q := by
  simp [isUnder]

theorem isUnder_cons_ne {a b : String} (h : ¬ a = b) (p q : Path) :
    isUnder (a :: p) (b :: q) = false := by
  simp [isUnder, h]

theorem isUnder_cons_dest {a : String} {r q : Path} (h : isUnder (a :: r) q = true) :
    ∃ t, q = a :: t ∧ isUnder r t = true := by
  cases q with
  | nil => simp [isUnder] at h
  | cons b q =>
    by_cases hab : a = b
    · subst hab
      exact ⟨q, rfl, by simpa [isUnder] using h⟩
    · simp [isUnder, hab] at h

theorem isUnder_comparable {p r q : Path} (hp : isUnder p q = true) (hr : isUnder r q = true) :
    isUnder p r = true ∨ isUnder r p = true := by
  induction q generalizing p r with
  | nil =>
    cases p with
    | nil => left; rfl
    | cons a p => simp [isUnder] at hp
  | cons b q ih =>
    cases p with
    | nil => left; rfl
    | cons a p =>
      cases r with
      | nil => right; rfl
      | cons c r =>
        by_cases hab : a = b
        · subst hab
          by_cases hca : c = a
          · subst hca
            rw [isUnder_cons_same] at hp hr
            rw [isUnder_cons_same, isUnder_cons_same]
            exact ih hp hr
          · rw [isUnder_cons_ne hca r q] at hr
            cases hr
        · simp [isUnder, hab] at hp

theorem relocate_isUnder {src dst q p : Path} (h : relocate src dst q = some p) :
    isUnder dst p = true := by
  simp only [relocate] at h
  by_cases hq : isUnder src q = true
  · rw [if_pos hq] at h
    cases h
    exact isUnder_append_self dst _
  · rw [if_neg hq] at h
    cases h

theorem pathExistsB_of_file {fs : FS} {p : Path} {c : String} {q : Path}
    (hm : (p, c) ∈ fs.files) (h : isUnder q p = true) : pathExistsB fs q = true := by
  simp only [pathExistsB, Bool.or_eq_true, List.any_eq_true]
  exact Or.inr ⟨(p, c), hm, h⟩

theorem pathExistsB_rmRec {fs : FS} {r p : Path}
    (h1 : isUnder p r = false) (h2 : isUnder r p = false) :
    pathExistsB (rmRec fs r) p = pathExistsB fs p := by
  apply bool_eq_of_iff
  simp only [pathExistsB, rmRec, Bool.or_eq_true, List.any_eq_true, List.mem_filter,
    Bool.not_eq_eq_eq_not, Bool.not_true, Bool.not_eq_true]
  constructor
  · rintro (⟨d, ⟨hd, _⟩, hdu⟩ | ⟨e, ⟨he, _⟩, heu⟩)
    · exact Or.inl ⟨d, hd, hdu⟩
    · exact Or.inr ⟨e, he, heu⟩
  · rintro (⟨d, hd, hdu⟩ | ⟨e, he, heu⟩)
    · refine Or.inl ⟨d, ⟨hd, ?_⟩, hdu⟩
      cases hru : isUnder r d with
      | false => rfl
      | true =>
        rcases isUnder_comparable hdu hru with h | h
        · rw [h] at h1; cases h1
        · rw [h] at h2; cases h2
    · refine Or.inr ⟨e, ⟨he, ?_⟩, heu⟩
      cases hru : isUnder r e.1 with
      | false => rfl
      | true =>
        rcases isUnder_comparable heu hru with h | h
        · rw [h] at h1; cases h1
        · rw [h] at h2; cases h2

theorem cpRec_dirs (fs : FS) (src dst : Path) :
    (cpRec fs src dst).dirs = fs.dirs.filterMap (relocate src dst) ++ fs.dirs := rfl

theorem cpRec_files (fs : FS) (src dst : Path) :
    (cpRec fs src dst).files =
      (fs.files.filterMap (fun e => (relocate src dst e.1).map (fun p => (p, e.2)))) ++
        fs.files.filter (fun e =>
          ! (fs.files.filterMap (fun e => (relocate src dst e.1).map (fun p => (p, e.2)))).any
            (fun c => decide (c.1 = e.1))) := rfl

theorem mem_copied {fs : FS} {src dst : Path} {x : Path × String}
    (hx : x ∈ fs.files.filterMap (fun e => (relocate src dst e.1).map (fun p => (p, e.2)))) :
    isUnder dst x.1 = true := by
  simp only [List.mem_filterMap, Option.map_eq_some'] at hx
  obtain ⟨a, _, pp, hrel, hx2⟩ := hx
  rw [← hx2]
  exact relocate_isUnder hrel

theorem copied_any_eq_false {fs : FS} {src dst : Path} {p : Path}
    (h : isUnder dst p = false) :
    ((fs.files.filterMap (fun e => (relocate src dst e.1).map (fun q => (q, e.2)))).any
      (fun c => decide (c.1 = p))) = false := by
  rw [List.any_eq_false]
  intro x hx
  have hdd := mem_copied hx
  simp only [decide_eq_true_eq]
  intro hxe
  rw [hxe] at hdd
  rw [hdd] at h
  cases h

theorem pathExistsB_cpRec {fs : FS} {src dst p : Path}
    (h1 : isUnder p dst = false) (h2 : isUnder dst p = false) :
    pathExistsB (cpRec fs src dst) p = pathExistsB fs p := by
  have hnot : ∀ x : Path, isUnder dst x = true → ¬ isUnder p x = true := by
    intro x hdx hpx
    rcases isUnder_comparable hpx hdx with h | h
    · rw [h] at h1; cases h1
    · rw [h] at h2; cases h2
  apply bool_eq_of_iff
  simp only [pathExistsB, cpRec_dirs, cpRec_files, Bool.or_eq_true, List.any_eq_true]
  constructor
  · rintro (⟨d, hd, hdu⟩ | ⟨e, he, heu⟩)
    · rcases List.mem_append.mp hd with hd | hd
      · exfalso
        simp only [List.mem_filterMap] at hd
        obtain ⟨q, hq, hrel⟩ := hd
        exact hnot d (relocate_isUnder hrel) hdu
      · exact Or.inl ⟨d, hd, hdu⟩
    · rcases List.mem_append.mp he with he | he
      · exact absurd heu (hnot e.1 (mem_copied he))
      · exact Or.inr ⟨e, (List.mem_filter.mp he).1, heu⟩
  · rintro (⟨d, hd, hdu⟩ | ⟨e, he, heu⟩)
    · exact Or.inl ⟨d, List.mem_append.mpr (Or.inr hd), hdu⟩
    · refine Or.inr ⟨e, List.mem_append.mpr (Or.inr (List.mem_filter.mpr ⟨he, ?_⟩)), heu⟩
      have hde : isUnder dst e.1 = false := by
        cases hdx : isUnder dst e.1 with
        | false => rfl
        | true => exact absurd heu (hnot e.1 hdx)
      simp [@copied_any_eq_false fs src dst _ hde]

theorem pathExistsB_mkdirRec (fs : FS) (d p : Path) :
    pathExistsB (mkdirRec fs d) p = (pathExistsB fs p || isUnder p d) := by
  apply bool_eq_of_iff
  simp only [pathExistsB, mkdirRec, Bool.or_eq_true, List.any_eq_true, List.mem_cons]
  constructor
  · rintro (⟨q, (hq | hq), hqu⟩ | h)
    · subst hq; exact Or.inr hqu
    · exact Or.inl (Or.inl ⟨q, hq, hqu⟩)
    · exact Or.inl (Or.inr h)
  · rintro ((⟨q, hq, hqu⟩ | h) | h)
    · exact Or.inl ⟨q, Or.inr hq, hqu⟩
    · exact Or.inr h
    · exact Or.inl ⟨d, Or.inl rfl, h⟩

theorem writeF_files (fs : FS) (w : Path) (c : String) :
    (writeF fs w c).files = (w, c) :: fs.files.filter (fun e => ! decide (e.1 = w)) := rfl

theorem writeF_dirs (fs : FS) (w : Path) (c : String) : (writeF fs w c).dirs = fs.dirs := rfl

theorem pathExistsB_writeF (fs : FS) (w p : Path) (c : String) :
    pathExistsB (writeF fs w c) p = (pathExistsB fs p || isUnder p w) := by
  apply bool_eq_of_iff
  simp only [pathExistsB, writeF_files, writeF_dirs, Bool.or_eq_true, List.any_eq_true]
  constructor
  · rintro (⟨d, hd, hdu⟩ | ⟨e, he, heu⟩)
    · exact Or.inl (Or.inl ⟨d, hd, hdu⟩)
    · rcases List.mem_cons.mp he with he | he
      · subst he
        exact Or.inr heu
      · exact Or.inl (Or.inr ⟨e, (List.mem_filter.mp he).1, heu⟩)
  · rintro ((⟨d, hd, hdu⟩ | ⟨e, he, heu⟩) | h)
    · exact Or.inl ⟨d, hd, hdu⟩
    · by_cases hew : e.1 = w
      · exact Or.inr ⟨(w, c), List.mem_cons_self _ _, by rw [← hew]; exact heu⟩
      · exact Or.inr ⟨e, List.mem_cons_of_mem _ (List.mem_filter.mpr ⟨he, by simp [hew]⟩), heu⟩
    · exact Or.inr ⟨(w, c), List.mem_cons_self _ _, h⟩

theorem mem_files_rmRec {fs : FS} {r p : Path} {c : String}
    (h : isUnder r p = false) (hm : (p, c) ∈ fs.files) : (p, c) ∈ (rmRec fs r).files := by
  simp only [rmRec, List.mem_filter]
  exact ⟨hm, by simp [h]⟩

theorem mem_files_cpRec {fs : FS} {src dst p : Path} {c : String}
    (h : isUnder dst p = false) (hm : (p, c) ∈ fs.files) : (p, c) ∈ (cpRec fs src dst).files := by
  rw [cpRec_files]
  refine List.mem_append.mpr (Or.inr (List.mem_filter.mpr ⟨hm, ?_⟩))
  simp [@copied_any_eq_false fs src dst _ h]

theorem mem_files_writeF {fs : FS} {w p : Path} {c cw : String}
    (h : ¬ p = w) (hm : (p, c) ∈ fs.files) : (p, c) ∈ (writeF fs w cw).files := by
  simp only [writeF, List.mem_cons, List.mem_filter]
  exact Or.inr ⟨hm, by simp [h]⟩

theorem writeF_writeF (fs : FS) (p : Path) (c : String) :
    writeF (writeF fs p c) p c = writeF fs p c := by
  simp only [writeF, List.filter_cons]
  congr 1
  simp [List.filter_filter]

theorem find?_key_filter_ne {α : Type} (l : List (Path × α)) (q w : Path) (h : ¬ q = w) :
    ((l.filter (fun e => ! decide (e.1 = w))).find? (fun e => decide (e.1 = q))) =
      l.find? (fun e => decide (e.1 = q)) := by
  have hwq : ¬ w = q := fun hq => h hq.symm
  induction l with
  | nil => rfl
  | cons e r ih =>
    by_cases hew : e.1 = w
    · simp [List.filter_cons, hew, List.find?_cons, hwq, h, ih]
    · by_cases heq : e.1 = q
      · simp [List.filter_cons, hew, List.find?_cons, heq, h]
      · simp [List.filter_cons, hew, List.find?_cons, heq, h, ih]

theorem readFileF_writeF_ne {fs : FS} {w q : Path} {c : String} (h : ¬ q = w) :
    readFileF (writeF fs w c) q = readFileF fs q := by
  have hwq : ¬ w = q := fun hq => h hq.symm
  have hd : (decide ((w, c).1 = q)) = false := by simp [hwq]
  simp only [readFileF, writeF_files, List.find?_cons, hd]
  rw [find?_key_filter_ne fs.files q w h]

/-- Worker configuration and external collaborators
(`packages/worker/src/services/app/app.executors.ts`):
`san` is `sanitizePath` (implemented in the @runtipi/shared package, not among
the sources at hand, hence kept abstract); `envContent` is the content written
by the worker's `generateEnvFile` helper to the per-app `app.env` path
(modelled from the spec §4.4, which fixes only the deterministic per-app
output path needed here); `gen` is `JSON.parse` composed with
`getDockerCompose` applied to the repo's `docker-compose.json` contents
(`none` models a parse/generation failure, which the code logs and swallows,
with the submitted form fixed throughout). -/
structure WEnv where
  san : String → String
  appsRepoId : String
  envContent : String → String
  gen : String → Option String

/-- `path.join(APP_DATA_DIR, sanitizePath(appId))`. -/
def appDataDirPath (env : WEnv) (id : String) : Path := ["app-data", env.san id]

/-- `path.join(DATA_DIR, 'apps', sanitizePath(appId))`. -/
def appDirPath (env : WEnv) (id : String) : Path := ["data", "apps", env.san id]

/-- `path.join(DATA_DIR, 'repos', appsRepoId, 'apps', sanitizePath(appId))`. -/
def repoPath (env : WEnv) (id : String) : Path :=
  ["data", "repos", env.appsRepoId, "apps", env.san id]

/-- The app's main compose definition inside the installed directory. -/
def dockerComposePath (env : WEnv) (id : String) : Path :=
  appDirPath env id ++ ["docker-compose.yml"]

/-- The repo's optional compose template. -/
def repoJsonPath (env : WEnv) (id : String) : Path := repoPath env id ++ ["docker-compose.json"]

/-- The per-app environment file path. -/
def appEnvPath (env : WEnv) (id : String) : Path := appDataDirPath env id ++ ["app.env"]

/-- The per-app user data directory (`app-data/<id>/data`). -/
def appDataDataPath (env : WEnv) (id : String) : Path := appDataDirPath env id ++ ["data"]

/-- The repo's seed-data directory for the app. -/
def repoDataPath (env : WEnv) (id : String) : Path := repoPath env id ++ ["data"]

/-- The directory listed to check that the app exists in the repo
(`path.join(DATA_DIR, 'repos', sanitizePath(appsRepoId), 'apps')`). -/
def repoAppsListPath (env : WEnv) : Path := ["data", "repos", env.san env.appsRepoId, "apps"]

/-- The filesystem operations a worker command performs, for frame reasoning. -/
inductive FsOp
  | rm (p : Path)
  | cp (src dst : Path)
  | mkdir (p : Path)
  | write (p : Path)
deriving DecidableEq, Repr

/-- First half of `AppExecutors.ensureAppDir`: when the installed directory
lacks `docker-compose.yml`, delete it and re-copy it from the repo. -/
def ensureStep1 (env : WEnv) (fs : FS) (id : String) : FS × List FsOp :=
  if pathExistsB fs (dockerComposePath env id) then (fs, [])
  else
    (cpRec (rmRec fs (appDirPath env id)) (repoPath env id) (appDirPath env id),
      [FsOp.rm (appDirPath env id), FsOp.cp (repoPath env id) (appDirPath env id)])

/-- Second half of `AppExecutors.ensureAppDir`: when the repo has a
`docker-compose.json` template, regenerate `docker-compose.yml` from it
(failures are logged and swallowed). -/
def ensureStep2 (env : WEnv) (id : String) (s : FS × List FsOp) : FS × List FsOp :=
  if pathExistsB s.1 (repoJsonPath env id) then
    match (readFileF s.1 (repoJsonPath env id)).bind env.gen with
    | some content =>
      (writeF s.1 (dockerComposePath env id) content,
        s.2 ++ [FsOp.write (dockerComposePath env id)])
    | none => s
  else s

/-- `AppExecutors.ensureAppDir`, with the trace of filesystem operations it
performed (the final `chmod` touches no modelled state). -/
def ensureAppDirW (env : WEnv) (fs : FS) (id : String) : FS × List FsOp :=
  ensureStep2 env id (ensureStep1 env fs id)

/-- The `{success, message}` result of a worker command. -/
structure WResult where
  success : Bool
  message : String
deriving DecidableEq, Repr

/-- `readdir(repos/<sanitized repo id>/apps).includes(appId)`. -/
def appInRepoListing (env : WEnv) (fs : FS) (id : String) : Bool :=
  (childNames fs (repoAppsListPath env)).any (fun n => decide (n = id))

/-- The unconditional filesystem steps of `AppExecutors.installApp`, in source
order: delete the installed directory, recreate it, copy the repo definition
into it, create the app-data directory, write the `app.env` file. -/
def installCopySteps (env : WEnv) (fs : FS) (id : String) : FS :=
  writeF
    (mkdirRec
      (cpRec (mkdirRec (rmRec fs (appDirPath env id)) (appDirPath env id))
        (repoPath env id) (appDirPath env id))
      (appDataDirPath env id))
    (appEnvPath env id) (env.envContent id)

/-- The conditional seed-data step of `AppExecutors.installApp`:
`copyDataDir` runs only when `app-data/<id>/data` does not already exist
(`copyDataDir` itself — in the missing helpers module — is modelled from the
spec §4.2: copy the catalog seed data into `app-data/<id>/data`). -/
def installSeedStep (env : WEnv) (fs5 : FS) (id : String) : FS × List FsOp :=
  if pathExistsB fs5 (appDataDataPath env id) then (fs5, [])
  else
    (cpRec fs5 (repoDataPath env id) (appDataDataPath env id),
      [FsOp.cp (repoDataPath env id) (appDataDataPath env id)])

/-- `AppExecutors.installApp`, as its effect on the filesystem, with the trace
of operations performed. `composeOk` is the container runtime's result for the
final `compose up` (the runtime changes no modelled filesystem state). -/
def installAppW (env : WEnv) (fs : FS) (id : String) (composeOk : Bool) :
    WResult × FS × List FsOp :=
  if appInRepoListing env fs id = false then
    ({ success := false, message := "App " ++ id ++ " not found in repo " ++ env.appsRepoId },
      fs, [])
  else
    let seed := installSeedStep env (installCopySteps env fs id) id
    let ens := ensureAppDirW env seed.1 id
    let ops :=
      [FsOp.rm (appDirPath env id), FsOp.mkdir (appDirPath env id),
        FsOp.cp (repoPath env id) (appDirPath env id), FsOp.mkdir (appDataDirPath env id),
        FsOp.write (appEnvPath env id)] ++ seed.2 ++ ens.2
    if composeOk then
      ({ success := true, message := "App " ++ id ++ " installed successfully" }, ens.1, ops)
    else
      ({ success := false, message := "compose up failed" }, ens.1, ops)

/-- C9: on an already-installed app (the installed directory contains its main
compose definition), `ensureAppDir` performs no delete and no re-copy from the
catalog source, and running it twice in a row leaves the very directory tree
the first run produced (byte-identical filesystem after the second call). -/
theorem ensure_app_dir_idempotent
    (env : WEnv) (fs : FS) (id : String)
    (hy : pathExistsB fs (dockerComposePath env id) = true) :
    (∀ p, FsOp.rm p ∉ (ensureAppDirW env fs id).2) ∧
    (∀ a b, FsOp.cp a b ∉ (ensureAppDirW env fs id).2) ∧
    (ensureAppDirW env (ensureAppDirW env fs id).1 id).1 = (ensureAppDirW env fs id).1 := by
  have hJY : ¬ repoJsonPath env id = dockerComposePath env id := by
    intro h
    have hlen := congrArg List.length h
    simp [repoJsonPath, repoPath, dockerComposePath, appDirPath] at hlen
  have h1 : ensureStep1 env fs id = (fs, []) := by simp [ensureStep1, hy]
  by_cases hJ : pathExistsB fs (repoJsonPath env id) = true
  · cases hgen : (readFileF fs (repoJsonPath env id)).bind env.gen with
    | none =>
      have hE : ensureAppDirW env fs id = (fs, []) := by
        simp [ensureAppDirW, h1, ensureStep2, hJ, hgen]
      refine ⟨by simp [hE], by simp [hE], by simp [hE]⟩
    | some c =>
      have hE : ensureAppDirW env fs id =
          (writeF fs (dockerComposePath env id) c, [FsOp.write (dockerComposePath env id)]) := by
        simp [ensureAppDirW, h1, ensureStep2, hJ, hgen]
      refine ⟨by simp [hE], by simp [hE], ?_⟩
      have hy2 : pathExistsB (writeF fs (dockerComposePath env id) c)
          (dockerComposePath env id) = true := by
        simp [pathExistsB_writeF, isUnder_refl]
      have h1b : ensureStep1 env (writeF fs (dockerComposePath env id) c) id =
          (writeF fs (dockerComposePath env id) c, []) := by
        simp [ensureStep1, hy2]
      have hJ2 : pathExistsB (writeF fs (dockerComposePath env id) c)
          (repoJsonPath env id) = true := by
        simp [pathExistsB_writeF, hJ]
      have hr2 : readFileF (writeF fs (dockerComposePath env id) c) (repoJsonPath env id) =
          readFileF fs (repoJsonPath env id) := readFileF_writeF_ne hJY
      have hE2 : ensureAppDirW env (writeF fs (dockerComposePath env id) c) id =
          (writeF fs (dockerComposePath env id) c, [FsOp.write (dockerComposePath env id)]) := by
        simp [ensureAppDirW, h1b, ensureStep2, hJ2, hr2, hgen, writeF_writeF]
      rw [hE]
      exact congrArg Prod.fst hE2
  · have hE : ensureAppDirW env fs id = (fs, []) := by
      simp [ensureAppDirW, h1, ensureStep2, hJ]
    refine ⟨by simp [hE], by simp [hE], by simp [hE]⟩

def c9Env : WEnv :=
  { san := fun s => s, appsRepoId := "repo", envContent := fun _ => "env", gen := fun _ => none }

def c9FS : FS :=
  { files := [(["data", "apps", "a", "docker-compose.yml"], "services")], dirs := [] }

theorem ensure_app_dir_idempotent_witness :
    (∀ p, FsOp.rm p ∉ (ensureAppDirW c9Env c9FS "a").2) ∧
    (∀ a b, FsOp.cp a b ∉ (ensureAppDirW c9Env c9FS "a").2) ∧
    (ensureAppDirW c9Env (ensureAppDirW c9Env c9FS "a").1 "a").1 =
      (ensureAppDirW c9Env c9FS "a").1 :=
  ensure_app_dir_idempotent c9Env c9FS "a" (by decide)

theorem under_data_shape {env : WEnv} {id : String} {p : Path}
    (h : isUnder (appDataDataPath env id) p = true) :
    ∃ t, p = "app-data" :: env.san id :: "data" :: t := by
  have h' : isUnder ("app-data" :: env.san id :: "data" :: []) p = true := h
  obtain ⟨t1, rfl, h1⟩ := isUnder_cons_dest h'
  obtain ⟨t2, rfl, h2⟩ := isUnder_cons_dest h1
  obtain ⟨t3, rfl, _⟩ := isUnder_cons_dest h2
  exact ⟨t3, rfl⟩

theorem installCopySteps_data_exists (env : WEnv) (fs : FS) (id : String) :
    pathExistsB (installCopySteps env fs id) (appDataDataPath env id) =
      pathExistsB fs (appDataDataPath env id) := by
  have f1 : isUnder (appDirPath env id) (appDataDataPath env id) = false := rfl
  have f2 : isUnder (appDataDataPath env id) (appDirPath env id) = false := rfl
  have f3 : isUnder (appDataDataPath env id) (appDataDirPath env id) = false := by
    simp only [appDataDataPath, appDataDirPath, List.cons_append, List.nil_append,
      isUnder_cons_same]
    rfl
  have f4 : isUnder (appDataDataPath env id) (appEnvPath env id) = false := by
    simp only [appDataDataPath, appEnvPath, appDataDirPath, List.cons_append, List.nil_append,
      isUnder_cons_same]
    rfl
  simp [installCopySteps, pathExistsB_writeF, pathExistsB_mkdirRec,
    pathExistsB_cpRec f2 f1, pathExistsB_rmRec f2 f1, f2, f3, f4]

theorem installCopySteps_preserves_data (env : WEnv) (fs : FS) (id : String)
    {p : Path} {c : String} (hunder : isUnder (appDataDataPath env id) p = true)
    (hm : (p, c) ∈ fs.files) : (p, c) ∈ (installCopySteps env fs id).files := by
  obtain ⟨t, rfl⟩ := under_data_shape hunder
  have hA : isUnder (appDirPath env id) ("app-data" :: env.san id :: "data" :: t) = false :=
    isUnder_cons_ne (by simp) _ _
  have hEnv : ¬ ("app-data" :: env.san id :: "data" :: t) = appEnvPath env id := by
    simp [appEnvPath, appDataDirPath]
  exact mem_files_writeF hEnv (mem_files_cpRec hA (mem_files_rmRec hA hm))

theorem ensure_preserves_data (env : WEnv) (fs : FS) (id : String)
    {p : Path} {c : String} (hunder : isUnder (appDataDataPath env id) p = true)
    (hm : (p, c) ∈ fs.files) : (p, c) ∈ (ensureAppDirW env fs id).1.files := by
  obtain ⟨t, rfl⟩ := under_data_shape hunder
  have hA : isUnder (appDirPath env id) ("app-data" :: env.san id :: "data" :: t) = false :=
    isUnder_cons_ne (by simp) _ _
  have hY : ¬ ("app-data" :: env.san id :: "data" :: t) = dockerComposePath env id := by
    simp [dockerComposePath, appDirPath]
  have h1 : ("app-data" :: env.san id :: "data" :: t, c) ∈ (ensureStep1 env fs id).1.files := by
    unfold ensureStep1
    by_cases hc : pathExistsB fs (dockerComposePath env id) = true
    · rw [if_pos hc]
      exact hm
    · rw [if_neg hc]
      exact mem_files_cpRec hA (mem_files_rmRec hA hm)
  unfold ensureAppDirW ensureStep2
  by_cases hc2 : pathExistsB (ensureStep1 env fs id).1 (repoJsonPath env id) = true
  · rw [if_pos hc2]
    cases hgen : (readFileF (ensureStep1 env fs id).1 (repoJsonPath env id)).bind env.gen with
    | some cc =>
      simp only [hgen]
      exact mem_files_writeF hY h1
    | none =>
      simp only [hgen]
      exact h1
  · rw [if_neg hc2]
    exact h1

theorem ensureAppDirW_ops (env : WEnv) (fs : FS) (id : String) {op : FsOp}
    (hop : op ∈ (ensureAppDirW env fs id).2) :
    op = FsOp.rm (appDirPath env id) ∨ op = FsOp.cp (repoPath env id) (appDirPath env id) ∨
      op = FsOp.write (dockerComposePath env id) := by
  have h1 : (ensureStep1 env fs id).2 = [] ∨
      (ensureStep1 env fs id).2 =
        [FsOp.rm (appDirPath env id), FsOp.cp (repoPath env id) (appDirPath env id)] := by
    unfold ensureStep1
    by_cases hc : pathExistsB fs (dockerComposePath env id) = true
    · rw [if_pos hc]; exact Or.inl rfl
    · rw [if_neg hc]; exact Or.inr rfl
  have h2 : (ensureAppDirW env fs id).2 = (ensureStep1 env fs id).2 ∨
      (ensureAppDirW env fs id).2 =
        (ensureStep1 env fs id).2 ++ [FsOp.write (dockerComposePath env id)] := by
    unfold ensureAppDirW ensureStep2
    by_cases hc : pathExistsB (ensureStep1 env fs id).1 (repoJsonPath env id) = true
    · rw [if_pos hc]
      cases (readFileF (ensureStep1 env fs id).1 (repoJsonPath env id)).bind env.gen with
      | some c => exact Or.inr rfl
      | none => exact Or.inl rfl
    · rw [if_neg hc]; exact Or.inl rfl
  rcases h2 with h2 | h2 <;> rcases h1 with h1 | h1 <;> rw [h2, h1] at hop <;>
    simp at hop <;> tauto

/-- C5: `installApp` deletes (and re-copies) only the installed-code
directory — every delete in its trace targets `data/apps/<id>` — it never
deletes the app-data directory: every file under `app-data/<id>/data` survives
with identical content; and the seed-data copy step runs exactly when
`app-data/<id>/data` did not already exist, so pre-existing files under that
path are never overwritten by a reinstall. -/
theorem install_preserves_app_data
    (env : WEnv) (fs : FS) (id : String) (composeOk : Bool)
    (hrepo : appInRepoListing env fs id = true) :
    (∀ p, FsOp.rm p ∈ (installAppW env fs id composeOk).2.2 → p = appDirPath env id) ∧
    (∀ p c, (p, c) ∈ fs.files → isUnder (appDataDataPath env id) p = true →
      (p, c) ∈ (installAppW env fs id composeOk).2.1.files) ∧
    (FsOp.cp (repoDataPath env id) (appDataDataPath env id) ∈
        (installAppW env fs id composeOk).2.2 ↔
      pathExistsB fs (appDataDataPath env id) = false) := by
  have hsnd : (installAppW env fs id composeOk).2 =
      ((ensureAppDirW env (installSeedStep env (installCopySteps env fs id) id).1 id).1,
        [FsOp.rm (appDirPath env id), FsOp.mkdir (appDirPath env id),
          FsOp.cp (repoPath env id) (appDirPath env id), FsOp.mkdir (appDataDirPath env id),
          FsOp.write (appEnvPath env id)] ++
          (installSeedStep env (installCopySteps env fs id) id).2 ++
          (ensureAppDirW env (installSeedStep env (installCopySteps env fs id) id).1 id).2) := by
    unfold installAppW
    rw [if_neg (by simp [hrepo])]
    cases composeOk <;> rfl
  have hADne : ¬ appDirPath env id = appDataDataPath env id := by
    simp [appDirPath, appDataDataPath, appDataDirPath]
  refine ⟨?_, ?_, ?_⟩
  · intro p hp
    rw [hsnd] at hp
    rcases List.mem_append.mp hp with hp | hp
    · rcases List.mem_append.mp hp with hp | hp
      · simp only [List.mem_cons, List.not_mem_nil, or_false] at hp
        rcases hp with h | h | h | h | h
        · cases h; rfl
        · cases h
        · cases h
        · cases h
        · cases h
      · unfold installSeedStep at hp
        by_cases hc : pathExistsB (installCopySteps env fs id) (appDataDataPath env id) = true
        · rw [if_pos hc] at hp
          simp at hp
        · rw [if_neg hc] at hp
          simp at hp
    · rcases ensureAppDirW_ops env _ id hp with h | h | h
      · cases h; rfl
      · cases h
      · cases h
  · intro p c hm hunder
    rw [hsnd]
    have hm5 := installCopySteps_preserves_data env fs id hunder hm
    have hseed : (installSeedStep env (installCopySteps env fs id) id).1 =
        installCopySteps env fs id := by
      unfold installSeedStep
      rw [if_pos]
      rw [installCopySteps_data_exists]
      exact pathExistsB_of_file hm hunder
    refine ensure_preserves_data env _ id hunder ?_
    rw [hseed]
    exact hm5
  · rw [hsnd]
    constructor
    · intro hp
      rcases List.mem_append.mp hp with hp | hp
      · rcases List.mem_append.mp hp with hp | hp
        · simp only [List.mem_cons, List.not_mem_nil, or_false] at hp
          rcases hp with h | h | h | h | h
          · cases h
          · cases h
          · simp only [FsOp.cp.injEq] at h
            exact absurd h.2.symm hADne
          · cases h
          · cases h
        · unfold installSeedStep at hp
          by_cases hc : pathExistsB (installCopySteps env fs id) (appDataDataPath env id) = true
          · rw [if_pos hc] at hp
            simp at hp
          · rw [if_neg hc] at hp
            rw [installCopySteps_data_exists] at hc
            simpa using hc
      · rcases ensureAppDirW_ops env _ id hp with h | h | h
        · cases h
        · simp only [FsOp.cp.injEq] at h
          exact absurd h.2.symm hADne
        · cases h
    · intro hD
      refine List.mem_append.mpr (Or.inl (List.mem_append.mpr (Or.inr ?_)))
      unfold installSeedStep
      rw [if_neg (by rw [installCopySteps_data_exists]; simp [hD])]
      simp

def c5Env : WEnv :=
  { san := fun s => s, appsRepoId := "repo", envContent := fun _ => "env", gen := fun _ => none }

def c5FS : FS :=
  { files :=
      [(["data", "repos", "repo", "apps", "a", "docker-compose.yml"], "services"),
        (["app-data", "a", "data", "keep.txt"], "precious")]
    dirs := [] }

theorem install_preserves_app_data_witness :
    appInRepoListing c5Env c5FS "a" = true ∧
    ((∀ p, FsOp.rm p ∈ (installAppW c5Env c5FS "a" true).2.2 → p = appDirPath c5Env "a") ∧
      (∀ p c, (p, c) ∈ c5FS.files → isUnder (appDataDataPath c5Env "a") p = true →
        (p, c) ∈ (installAppW c5Env c5FS "a" true).2.1.files) ∧
      (FsOp.cp (repoDataPath c5Env "a") (appDataDataPath c5Env "a") ∈
          (installAppW c5Env c5FS "a" true).2.2 ↔
        pathExistsB c5FS (appDataDataPath c5Env "a") = false)) :=
  ⟨by decide, install_preserves_app_data c5Env c5FS "a" true (by decide)⟩

/-- The worker's view of the app table: id to status. -/
abbrev DbT := List (String × AppStatus)

/-- `db.update(appTable).set({status}).where(eq(appTable.id, id))`. -/
def dbSetStatus (db : DbT) (id : String) (st : AppStatus) : DbT :=
  db.map (fun e => if e.1 = id then (e.1, st) else e)

/-- `db.delete(appTable).where(eq(appTable.id, id))`. -/
def dbDelete (db : DbT) (id : String) : DbT :=
  db.filter (fun e => decide (e.1 ≠ id))

/-- The container runtime's result for a compose invocation. -/
inductive ComposeResult
  | ok
  | fail (msg : String)
deriving DecidableEq, Repr

/-- `err.message.includes('conflict')`: for a non-empty pattern, `splitOn`
yields more than one part exactly when the pattern occurs in the string. -/
def msgHasConflict (m : String) : Bool := (m.splitOn "conflict").length != 1

/-- Worker-side state: the filesystem, the app table, and the warning and
error logs. -/
structure WState where
  fs : FS
  db : DbT
  warns : List String
  errs : List String
deriving DecidableEq, Repr

/-- The tail of `AppExecutors.uninstallApp` after the compose `down`: delete
the installed and app-data directories — each deletion failure is logged and
swallowed (`rmAppDirOk`/`rmDataDirOk` are the outcomes) — then delete the app
row and report success. -/
def uninstallContinue (env : WEnv) (st : WState) (id : String)
    (rmAppDirOk rmDataDirOk : Bool) : WResult × WState :=
  let fs3 := if rmAppDirOk then rmRec st.fs (appDirPath env id) else st.fs
  let errs3 := if rmAppDirOk then st.errs else st.errs ++ ["Error deleting folder"]
  let fs4 := if rmDataDirOk then rmRec fs3 (appDataDirPath env id) else fs3
  let errs4 := if rmDataDirOk then errs3 else errs3 ++ ["Error deleting folder"]
  ({ success := true, message := "App " ++ id ++ " uninstalled successfully" },
    { fs := fs4, db := dbDelete st.db id, warns := st.warns, errs := errs4 })

/-- `AppExecutors.uninstallApp`: ensure the app dir, regenerate the env file,
compose `down`; a runtime failure whose message contains `conflict` is
tolerated with a warning and the command continues, any other failure aborts
with `{success: false, message}` (its error event carries the fallback status
`stopped`); directory-deletion failures never block the row deletion. -/
def uninstallAppW (env : WEnv) (st : WState) (id : String) (down : ComposeResult)
    (rmAppDirOk rmDataDirOk : Bool) : WResult × WState :=
  let fs1 := (ensureAppDirW env st.fs id).1
  let fs2 := writeF fs1 (appEnvPath env id) (env.envContent id)
  match down with
  | ComposeResult.ok => uninstallContinue env { st with fs := fs2 } id rmAppDirOk rmDataDirOk
  | ComposeResult.fail m =>
    if msgHasConflict m then
      uninstallContinue env
        { st with
          fs := fs2
          warns := st.warns ++ ["Could not fully uninstall app " ++ id] }
        id rmAppDirOk rmDataDirOk
    else ({ success := false, message := m }, { st with fs := fs2, errs := st.errs ++ [m] })

/-- The completion handler of `AppServiceClass.uninstallApp`: on success the
row is deleted, on failure the status is set back to `stopped`. -/
def uninstallFinalize (db : DbT) (id : String) (r : WResult) : DbT :=
  if r.success then dbDelete db id else dbSetStatus db id AppStatus.stopped

/-- The full uninstall flow: the worker command followed by the server-side
completion handler applied to the resulting table. -/
def uninstallFlow (env : WEnv) (st : WState) (id : String) (down : ComposeResult)
    (rmAppDirOk rmDataDirOk : Bool) : WResult × WState :=
  let r := uninstallAppW env st id down rmAppDirOk rmDataDirOk
  (r.1, { r.2 with db := uninstallFinalize r.2.db id r.1 })

/-- Status normalization in `startAllApps`: any status other than `running`,
`stopped` or `missing` becomes `stopped` (crash recovery). -/
def normalizeStatus (s : AppStatus) : AppStatus :=
  if s = AppStatus.running ∨ s = AppStatus.stopped ∨ s = AppStatus.missing then s
  else AppStatus.stopped

/-- `AppExecutors.startAllApps`: select the apps to start (`running` rows, or
every row when `force`), normalize stale statuses, then start each selected
app serially; `oracle` gives each per-app `startApp` outcome — a failure sets
only that app's status to `stopped`, a success to `running`, and the loop
continues either way. -/
def startAllAppsW (db : DbT) (force : Bool) (oracle : String → Bool) : DbT :=
  let apps := if force then db else db.filter (fun e => decide (e.2 = AppStatus.running))
  let db1 := db.map (fun e => (e.1, normalizeStatus e.2))
  apps.foldl
    (fun d e =>
      dbSetStatus d e.1 (if oracle e.1 then AppStatus.running else AppStatus.stopped))
    db1

theorem assocLookup_dbDelete_self (db : DbT) (id : String) :
    assocLookup (dbDelete db id) id = none := by
  induction db with
  | nil => rfl
  | cons e r ih =>
    by_cases h : e.1 = id
    · simpa [dbDelete, h] using ih
    · simpa [dbDelete, assocLookup, h] using ih

theorem assocLookup_dbSetStatus_self (db : DbT) (id : String) (st : AppStatus) :
    assocLookup (dbSetStatus db id st) id = (assocLookup db id).map (fun _ => st) := by
  induction db with
  | nil => rfl
  | cons e r ih =>
    by_cases h : e.1 = id
    · simp [dbSetStatus, assocLookup, h]
    · simpa [dbSetStatus, assocLookup, h] using ih

theorem dbSetStatus_cons (e : String × AppStatus) (r : DbT) (id : String) (st : AppStatus) :
    dbSetStatus (e :: r) id st =
      (if e.1 = id then (e.1, st) else e) :: dbSetStatus r id st := rfl

theorem assocLookup_dbSetStatus_ne (db : DbT) (id j : String) (st : AppStatus)
    (h : ¬ id = j) : assocLookup (dbSetStatus db id st) j = assocLookup db j := by
  induction db with
  | nil => rfl
  | cons e r ih =>
    rw [dbSetStatus_cons]
    by_cases he : e.1 = id
    · have hj : ¬ e.1 = j := by rw [he]; exact h
      rw [if_pos he]
      simp only [assocLookup, hj, if_false]
      exact ih
    · by_cases hej : e.1 = j
      · rw [if_neg he]
        simp [assocLookup, hej]
      · rw [if_neg he]
        simp only [assocLookup, hej, if_false]
        exact ih

theorem assocLookup_map_normalize (db : DbT) (i : String) :
    assocLookup (db.map (fun e => (e.1, normalizeStatus e.2))) i =
      (assocLookup db i).map normalizeStatus := by
  induction db with
  | nil => rfl
  | cons e r ih =>
    by_cases h : e.1 = i
    · simp [assocLookup, h]
    · simpa [assocLookup, h] using ih

theorem assocLookup_of_mem_nodup {α : Type} {l : List (String × α)} {i : String} {v : α}
    (hnd : (l.map Prod.fst).Nodup) (hm : (i, v) ∈ l) : assocLookup l i = some v := by
  induction l with
  | nil => cases hm
  | cons e r ih =>
    have hmap : List.map Prod.fst (e :: r) = e.1 :: List.map Prod.fst r := rfl
    rw [hmap] at hnd
    have hnd2 := List.nodup_cons.mp hnd
    rcases List.mem_cons.mp hm with he | hm2
    · rw [← he]
      simp [assocLookup]
    · have hne : ¬ e.1 = i := by
        intro h
        exact hnd2.1 (by rw [h]; exact List.mem_map.mpr ⟨(i, v), hm2, rfl⟩)
      simp only [assocLookup, hne, if_false]
      exact ih hnd2.2 hm2

theorem startFold_not_mem (db : DbT) (sel : List (String × AppStatus)) (oracle : String → Bool)
    (i : String) (h : ∀ e ∈ sel, ¬ e.1 = i) :
    assocLookup
      (sel.foldl
        (fun d e =>
          dbSetStatus d e.1 (if oracle e.1 then AppStatus.running else AppStatus.stopped))
        db) i = assocLookup db i := by
  induction sel generalizing db with
  | nil => rfl
  | cons e r ih =>
    simp only [List.foldl_cons]
    rw [ih _ (fun x hx => h x (List.mem_cons_of_mem e hx))]
    exact assocLookup_dbSetStatus_ne db e.1 i _ (h e (List.mem_cons_self e r))

theorem startFold_mem (db : DbT) (sel : List (String × AppStatus)) (oracle : String → Bool)
    (i : String) (h : i ∈ sel.map Prod.fst) (hsome : (assocLookup db i).isSome = true) :
    assocLookup
      (sel.foldl
        (fun d e =>
          dbSetStatus d e.1 (if oracle e.1 then AppStatus.running else AppStatus.stopped))
        db) i = some (if oracle i then AppStatus.running else AppStatus.stopped) := by
  induction sel generalizing db with
  | nil => simp at h
  | cons e r ih =>
    simp only [List.foldl_cons]
    by_cases hei : e.1 = i
    · by_cases hmem : i ∈ r.map Prod.fst
      · apply ih _ hmem
        rw [hei, assocLookup_dbSetStatus_self]
        obtain ⟨v, hv⟩ := Option.isSome_iff_exists.mp hsome
        simp [hv]
      · have hnone : ∀ x ∈ r, ¬ x.1 = i := by
          intro x hx hxi
          exact hmem (List.mem_map.mpr ⟨x, hx, hxi⟩)
        rw [startFold_not_mem _ r oracle i hnone]
        rw [hei, assocLookup_dbSetStatus_self]
        obtain ⟨v, hv⟩ := Option.isSome_iff_exists.mp hsome
        rw [hv]
        rfl
    · have hmem : i ∈ r.map Prod.fst := by
        rcases List.mem_map.mp h with ⟨x, hx, hxi⟩
        rcases List.mem_cons.mp hx with hxe | hxr
        · exact absurd (by rw [← hxe]; exact hxi) hei
        · exact List.mem_map.mpr ⟨x, hxr, hxi⟩
      apply ih _ hmem
      rw [assocLookup_dbSetStatus_ne db e.1 i _ hei]
      exact hsome

/-- C6: a `conflict` failure of the container runtime during uninstall is
tolerated — the command still succeeds, logs a warning and the app row is
deleted (status effectively `missing`); any other runtime failure makes the
command fail and the status reverts to `stopped`; and failures deleting the
installed-code or app-data directories do not block the row deletion. -/
theorem uninstall_conflict_tolerated
    (env : WEnv) (st : WState) (id : String) (st0 : AppStatus) (m : String)
    (hdb : assocLookup st.db id = some st0) :
    (msgHasConflict m = true →
      (uninstallFlow env st id (ComposeResult.fail m) true true).1.success = true ∧
      assocLookup (uninstallFlow env st id (ComposeResult.fail m) true true).2.db id = none ∧
      st.warns.length <
        (uninstallFlow env st id (ComposeResult.fail m) true true).2.warns.length) ∧
    (msgHasConflict m = false →
      (uninstallFlow env st id (ComposeResult.fail m) true true).1.success = false ∧
      assocLookup (uninstallFlow env st id (ComposeResult.fail m) true true).2.db id =
        some AppStatus.stopped) ∧
    ((uninstallFlow env st id ComposeResult.ok false false).1.success = true ∧
      assocLookup (uninstallFlow env st id ComposeResult.ok false false).2.db id = none) := by
  refine ⟨?_, ?_, ?_⟩
  · intro hc
    simp [uninstallFlow, uninstallAppW, hc, uninstallContinue, uninstallFinalize,
      assocLookup_dbDelete_self]
  · intro hc
    simp [uninstallFlow, uninstallAppW, hc, uninstallFinalize,
      assocLookup_dbSetStatus_self, hdb]
  · simp [uninstallFlow, uninstallAppW, uninstallContinue, uninstallFinalize,
      assocLookup_dbDelete_self]

def c6Env : WEnv :=
  { san := fun s => s, appsRepoId := "repo", envContent := fun _ => "env", gen := fun _ => none }

def c6St : WState :=
  { fs := { files := [], dirs := [] }, db := [("a", AppStatus.running)], warns := [], errs := [] }

theorem uninstall_conflict_tolerated_witness :
    (msgHasConflict "conflict: image is in use" = true →
      (uninstallFlow c6Env c6St "a" (ComposeResult.fail "conflict: image is in use")
          true true).1.success = true ∧
      assocLookup (uninstallFlow c6Env c6St "a"
          (ComposeResult.fail "conflict: image is in use") true true).2.db "a" = none ∧
      c6St.warns.length <
        (uninstallFlow c6Env c6St "a" (ComposeResult.fail "conflict: image is in use")
            true true).2.warns.length) ∧
    (msgHasConflict "conflict: image is in use" = false →
      (uninstallFlow c6Env c6St "a" (ComposeResult.fail "conflict: image is in use")
          true true).1.success = false ∧
      assocLookup (uninstallFlow c6Env c6St "a"
          (ComposeResult.fail "conflict: image is in use") true true).2.db "a" =
        some AppStatus.stopped) ∧
    ((uninstallFlow c6Env c6St "a" ComposeResult.ok false false).1.success = true ∧
      assocLookup (uninstallFlow c6Env c6St "a" ComposeResult.ok false false).2.db "a" =
        none) :=
  uninstall_conflict_tolerated c6Env c6St "a" AppStatus.running "conflict: image is in use" rfl

/-- C7: `startAllApps` first normalizes every record whose status is neither
`running`, `stopped` nor `missing` to `stopped`, then starts each selected app
(the `running`-status rows, or every row when forced); each selected app ends
`running` on its own start success and `stopped` on its own start failure —
independent of every other app's outcome, so one app's failure never aborts
the batch. -/
theorem start_all_apps_per_app_outcome
    (db : DbT) (force : Bool) (oracle : String → Bool)
    (hnodup : (db.map Prod.fst).Nodup) (i : String) (s : AppStatus) (hmem : (i, s) ∈ db) :
    assocLookup (startAllAppsW db force oracle) i =
      some (if force = true ∨ s = AppStatus.running then
              (if oracle i then AppStatus.running else AppStatus.stopped)
            else normalizeStatus s) := by
  have hlook : assocLookup db i = some s := assocLookup_of_mem_nodup hnodup hmem
  have hdb1 : assocLookup (db.map (fun e => (e.1, normalizeStatus e.2))) i =
      some (normalizeStatus s) := by
    rw [assocLookup_map_normalize, hlook]
    rfl
  simp only [startAllAppsW]
  by_cases hf : force = true
  · rw [hf]
    have hsel : i ∈ db.map Prod.fst := List.mem_map.mpr ⟨(i, s), hmem, rfl⟩
    rw [if_pos rfl]
    rw [startFold_mem _ db oracle i hsel (by rw [hdb1]; rfl)]
    simp
  · have hff : force = false := by cases force <;> simp_all
    rw [hff]
    rw [if_neg (by simp)]
    by_cases hs : s = AppStatus.running
    · have hsel : i ∈ (db.filter (fun e => decide (e.2 = AppStatus.running))).map Prod.fst :=
        List.mem_map.mpr ⟨(i, s), List.mem_filter.mpr ⟨hmem, by simp [hs]⟩, rfl⟩
      rw [startFold_mem _ _ oracle i hsel (by rw [hdb1]; rfl)]
      simp [hs]
    · have hnone : ∀ e ∈ db.filter (fun e => decide (e.2 = AppStatus.running)), ¬ e.1 = i := by
        intro e he hei
        have hef := List.mem_filter.mp he
        have hrun : e.2 = AppStatus.running := by simpa using hef.2
        have hmem2 : (i, e.2) ∈ db := by
          rw [← hei]
          exact hef.1
        have hv := assocLookup_of_mem_nodup hnodup hmem2
        rw [hlook] at hv
        injection hv with hv2
        rw [hv2] at hs
        exact hs hrun
      rw [startFold_not_mem _ _ oracle i hnone, hdb1]
      simp [hs]

def c7Db : DbT := [("a", AppStatus.installing), ("b", AppStatus.running)]

theorem start_all_apps_per_app_outcome_witness :
    assocLookup (startAllAppsW c7Db false (fun _ => false)) "b" =
      some (if false = true ∨ AppStatus.running = AppStatus.running then
              (if (fun _ : String => false) "b" then AppStatus.running else AppStatus.stopped)
            else normalizeStatus AppStatus.running) :=
  start_all_apps_per_app_outcome c7Db false (fun _ => false) (by decide) "b"
    AppStatus.running (by decide)

end Runtipi
